import Mathlib

/-!
Verification of `barcode_analyzer.py`.

The development embeds the pure core of the program:

* `suggest_structure` — the string-structuring heuristic (source lines 53–89);
* the decode-result pipeline of `MainWindow.decode_current` (lines 284–327),
  split into `filteredHits`, `sortedHits` and `process`;
* the JSON note mapping of `MainWindow.export_json` / `MainWindow.import_json`
  (lines 394–423).

Machine integers are embedded as `Int`/`Nat`; byte strings as `List Nat`;
fallible operations as `Except`.
-/

/-- Models Python `str.isdigit` on a single character.  Python's `isdigit` is
Unicode-aware: it accepts every Unicode decimal digit, not only the ASCII
range.  The embedding covers the ASCII digits together with U+0661
ARABIC-INDIC DIGIT ONE, the representative non-ASCII decimal digit used in
this development (Python: `'١'.isdigit() == True`). -/
def pyIsDigit (c : Char) : Bool :=
  c.isDigit || c = '١'

/-- Models Python `str.isalpha` on a single character.  Python's `isalpha` is
Unicode-aware: it accepts every Unicode alphabetic character, not only ASCII
letters.  The embedding covers the ASCII letters together with U+00E9 LATIN
SMALL LETTER E WITH ACUTE, the representative non-ASCII letter used in this
development (Python: `'é'.isalpha() == True`). -/
def pyIsAlpha (c : Char) : Bool :=
  c.isAlpha || c = 'é'

/-- Python `tok.isdigit()` on a whole string: true iff the string is nonempty
and every character is a digit. -/
def pyStrIsDigit (l : List Char) : Bool :=
  !l.isEmpty && l.all pyIsDigit

/-- Python `tok.isalpha()` on a whole string: true iff the string is nonempty
and every character is a letter. -/
def pyStrIsAlpha (l : List Char) : Bool :=
  !l.isEmpty && l.all pyIsAlpha

/-- The run-segmentation loop of `suggest_structure` (source lines 60–69):
`buf` is the current run, the second argument the remaining characters.  A
character extends the current run exactly when it is a digit and the last
buffered character is a digit, or it is a letter and the last buffered
character is a letter (`buf[-1]` in the source). -/
def partsAux : List Char → List Char → List (List Char)
  | buf, [] => [buf]
  | buf, ch :: tl =>
    if (pyIsDigit ch && pyIsDigit (buf.getLastD ' ')) ||
       (pyIsAlpha ch && pyIsAlpha (buf.getLastD ' ')) then
      partsAux (buf ++ [ch]) tl
    else
      buf :: partsAux [ch] tl

/-- The token list `parts` computed by `suggest_structure` for a given input
string (empty input yields no tokens; otherwise the loop starts with
`buf = [s[0]]`). -/
def suggestParts (s : String) : List (List Char) :=
  match s.data with
  | [] => []
  | c0 :: rest => partsAux [c0] rest

/-- Source `token_pat` (lines 72–74): `N`/`L`/`X` kind followed by the token
length in braces. -/
def token_pat (tok : List Char) : String :=
  let kind := if pyStrIsDigit tok then "N" else if pyStrIsAlpha tok then "L" else "X"
  kind ++ "\x7b" ++ toString tok.length ++ "\x7d"

/-- Source `suggest_structure` (lines 53–89): groups joined with `" + "`, the
pattern signature in brackets, and the three heuristic hints.  The hint texts
are the Italian strings of the source. -/
def suggest_structure (s : String) : String :=
  match s.data with
  | [] => ""
  | c0 :: rest =>
    let parts := partsAux [c0] rest
    let pattern := String.join (parts.map token_pat)
    let groups := String.intercalate " + " (parts.map String.mk)
    let hints :=
      (if c0 == '9' && decide (2 ≤ (c0 :: rest).length) then
        ["inizia con 9 (flag)"] else []) ++
      (if pyIsAlpha ((c0 :: rest).getLastD c0) then
        ["suffisso lettera"] else []) ++
      (if parts.any (fun t => pyStrIsDigit t &&
          (t.length == 5 || t.length == 6 || t.length == 7)) then
        ["possibile serial numerico"] else [])
    let hintTxt := if hints.isEmpty then "" else " | " ++ String.intercalate ", " hints
    groups ++ "  [" ++ pattern ++ "]" ++ hintTxt

example : suggest_structure "" = "" := by decide
example : suggest_structure "ABC123" = "ABC + 123  [L{3}N{3}]" := by decide
example : suggest_structure "9123456A" =
    "9123456 + A  [N{7}L{1}] | inizia con 9 (flag), suffisso lettera, possibile serial numerico" := by
  decide
example : suggest_structure "é" = "é  [L{1}] | suffisso lettera" := by decide
example : suggest_structure "١" = "١  [N{1}]" := by decide
example : suggestParts "a!b" = [['a'], ['!'], ['b']] := by decide

/-- The Unicode replacement character U+FFFD, which Python's
`bytes.decode("utf-8", errors="replace")` substitutes for ill-formed byte
sequences. -/
def replacementChar : Char := Char.ofNat 0xFFFD

/-- A UTF-8 continuation byte (`0x80–0xBF`). -/
def isCont (b : Nat) : Bool := 0x80 ≤ b && b ≤ 0xBF

/-- Lower bound of the admissible second byte after a given multi-byte lead
(`0xA0` after `0xE0`, `0x90` after `0xF0`, otherwise `0x80`). -/
def cont2lo (b0 : Nat) : Nat := if b0 = 0xE0 then 0xA0 else if b0 = 0xF0 then 0x90 else 0x80

/-- Upper bound of the admissible second byte after a given multi-byte lead
(`0x9F` after `0xED`, `0x8F` after `0xF4`, otherwise `0xBF`). -/
def cont2hi (b0 : Nat) : Nat := if b0 = 0xED then 0x9F else if b0 = 0xF4 then 0x8F else 0xBF

/-- Parse one UTF-8 sequence starting at lead byte `b0` with following bytes
`rest`.  Returns the decoded scalar (or `none` when the sequence starting at
`b0` is ill-formed) and the total number of bytes consumed, which for an
ill-formed sequence is the length of its maximal subpart (lead byte plus the
well-formed continuation bytes that follow it), per the W3C/Unicode practice
CPython implements. -/
def utf8Step (b0 : Nat) (rest : List Nat) : Option Char × Nat :=
  if b0 ≤ 0x7F then (some (Char.ofNat b0), 1)
  else if 0xC2 ≤ b0 && b0 ≤ 0xDF then
    match rest with
    | b1 :: _ =>
      if isCont b1 then (some (Char.ofNat ((b0 - 0xC0) * 0x40 + (b1 - 0x80))), 2)
      else (none, 1)
    | [] => (none, 1)
  else if 0xE0 ≤ b0 && b0 ≤ 0xEF then
    match rest with
    | b1 :: rest2 =>
      if cont2lo b0 ≤ b1 && b1 ≤ cont2hi b0 then
        match rest2 with
        | b2 :: _ =>
          if isCont b2 then
            (some (Char.ofNat ((b0 - 0xE0) * 0x1000 + (b1 - 0x80) * 0x40 + (b2 - 0x80))), 3)
          else (none, 2)
        | [] => (none, 2)
      else (none, 1)
    | [] => (none, 1)
  else if 0xF0 ≤ b0 && b0 ≤ 0xF4 then
    match rest with
    | b1 :: rest2 =>
      if cont2lo b0 ≤ b1 && b1 ≤ cont2hi b0 then
        match rest2 with
        | b2 :: rest3 =>
          if isCont b2 then
            match rest3 with
            | b3 :: _ =>
              if isCont b3 then
                (some (Char.ofNat ((b0 - 0xF0) * 0x40000 + (b1 - 0x80) * 0x1000 +
                  (b2 - 0x80) * 0x40 + (b3 - 0x80))), 4)
              else (none, 3)
            | [] => (none, 3)
          else (none, 2)
        | [] => (none, 2)
      else (none, 1)
    | [] => (none, 1)
  else (none, 1)

/-- Fuel-indexed body of the replacing UTF-8 decoder.  Each step consumes at
least one byte and one unit of fuel, so with fuel at least the list length
the fuel never runs out. -/
def utf8ReplAux : Nat → List Nat → List Char
  | 0, _ => []
  | _ + 1, [] => []
  | fuel + 1, b0 :: rest =>
    match utf8Step b0 rest with
    | (some c, k) => c :: utf8ReplAux fuel (rest.drop (k - 1))
    | (none, k) => replacementChar :: utf8ReplAux fuel (rest.drop (k - 1))

/-- Models CPython `bytes.decode("utf-8", errors="replace")` (used at source
line 313): well-formed sequences decode to their scalar value; each maximal
subpart of an ill-formed subsequence is replaced by one U+FFFD, decoding then
resumes at the following byte. -/
def utf8DecodeReplaceList (l : List Nat) : List Char := utf8ReplAux l.length l

/-- Fuel-indexed body of the strict UTF-8 acceptor. -/
def validUTF8Aux : Nat → List Nat → Bool
  | 0, _ => true
  | _ + 1, [] => true
  | fuel + 1, b0 :: rest =>
    match utf8Step b0 rest with
    | (some _, k) => validUTF8Aux fuel (rest.drop (k - 1))
    | (none, _) => false

/-- Whether a byte list is well-formed UTF-8 (the strict decoder accepts it
without error). -/
def validUTF8 (l : List Nat) : Bool := validUTF8Aux l.length l

/-- The decoded `code` of a payload, as a `String` (source line 313). -/
def utf8DecodeReplace (l : List Nat) : String := String.mk (utf8DecodeReplaceList l)

example : utf8DecodeReplace [0xFF] = "�" := by decide
example : utf8DecodeReplace [0xC3, 0x28] = "�(" := by decide
example : utf8DecodeReplace [0xE2, 0x82] = "�" := by decide
example : utf8DecodeReplace [0xE0, 0x80, 0xAF] = "���" := by decide
example : utf8DecodeReplace [0xF0, 0x9F, 0x98] = "�" := by decide
example : utf8DecodeReplace [0xED, 0xA0, 0x80] = "���" := by decide
example : utf8DecodeReplace [0xF4, 0x90, 0x80, 0x80] = "����" := by decide
example : utf8DecodeReplace [0xC2, 0xA9] = "©" := by decide
example : utf8DecodeReplace [0x41, 0x42] = "AB" := by decide
example : utf8DecodeReplace [0xE2, 0x82, 0xAC] = "€" := by decide
example : utf8DecodeReplace [0xF0, 0x9F, 0x98, 0x80] = "😀" := by decide
example : validUTF8 [0x41, 0xC2, 0xA9] = true := by decide
example : validUTF8 [0xFF] = false := by decide
example : validUTF8 [0xE2, 0x82] = false := by decide

/-- The bounding rectangle of a decode hit, as pyzbar's `Rect` namedtuple
`(left, top, width, height)` in image pixel coordinates. -/
structure Rect where
  left : Int
  top : Int
  width : Int
  height : Int
deriving DecidableEq

/-- A raw decode hit as returned by `zbar_decode`: the symbology tag
(`r.type`), the payload bytes (`r.data`) and the bounding rectangle
(`r.rect`). -/
structure DecodeHit where
  type : String
  data : List Nat
  rect : Rect
deriving DecidableEq

/-- The `Row` dataclass of the source (lines 43–48). -/
structure Row where
  index : Int
  code : String
  suggestion : String
  note : String := ""
deriving DecidableEq

/-- The sort key `key_of` of `decode_current` (lines 302–304):
`(rect.top, rect.left)`. -/
def key_of (r : DecodeHit) : Int × Int := (r.rect.top, r.rect.left)

/-- Boolean comparison realising Python's tuple comparison on `key_of`:
lexicographic on `(top, left)`. -/
def keyLe (a b : DecodeHit) : Bool :=
  decide ((key_of a).1 < (key_of b).1 ∨
    ((key_of a).1 = (key_of b).1 ∧ (key_of a).2 ≤ (key_of b).2))

/-- The symbology filter of `decode_current` (line 299): keep only hits whose
`type` is `"CODE128"`. -/
def filteredHits (hits : List DecodeHit) : List DecodeHit :=
  hits.filter (fun r => r.type == "CODE128")

/-- Stable insertion of an element into a list relative to a boolean `le`:
the element is placed before the first entry it compares `le` to, hence
before every entry with an equal key and after every strictly smaller one. -/
def insertLe {α : Type} (le : α → α → Bool) (a : α) : List α → List α
  | [] => [a]
  | b :: l => if le a b then a :: b :: l else b :: insertLe le a l

/-- Stable insertion sort relative to a boolean `le`. -/
def sortLe {α : Type} (le : α → α → Bool) : List α → List α
  | [] => []
  | a :: l => insertLe le a (sortLe le l)

/-- The sorted hit list of `decode_current` (line 306): the filtered hits,
stable-sorted by `(top, left)`.  Python's `list.sort` is specified to be
stable, and a stable sort is extensionally unique, so the stable `sortLe` is
its embedding (stability is proved below, not assumed). -/
def sortedHits (hits : List DecodeHit) : List DecodeHit :=
  sortLe keyLe (filteredHits hits)

/-- One result row as built in the loop of `decode_current` (lines 311–316):
`code` decoded with replacement, `suggestion` recomputed from `code`, empty
note. -/
def mkRow (n : Int) (h : DecodeHit) : Row :=
  { index := n
    code := utf8DecodeReplace h.data
    suggestion := suggest_structure (utf8DecodeReplace h.data)
    note := "" }

/-- The rectangle tuple appended to `_decoded_rects` (line 318):
`(left, top, width, height)`. -/
def rectTuple (h : DecodeHit) : Int × Int × Int × Int :=
  (h.rect.left, h.rect.top, h.rect.width, h.rect.height)

/-- The pure decode-result pipeline of `decode_current` (lines 298–318):
filter to CODE128, stable-sort by `(top, left)`, cap at 10, number from 1,
decode payloads with replacement and emit the matching rectangles. -/
def process (hits : List DecodeHit) : List Row × List (Int × Int × Int × Int) :=
  let capped := (sortedHits hits).take 10
  (capped.enum.map (fun p => mkRow ((p.1 : Int) + 1) p.2), capped.map rectTuple)

/-- The state touched by `decode_current`: the loaded image (contents
external, only presence modelled), the result rows and the decoded
rectangles.  The table mirrors `rows` via `populate_table`. -/
structure AppState where
  image : Option Unit
  rows : List Row
  rects : List (Int × Int × Int × Int)
deriving DecidableEq

/-- Source `MainWindow.decode_current` (lines 284–327) as a state transition.
The external `zbar_decode` call is passed as an `Except`: `error` models the
call raising.  On a raised exception the handler shows a message box and
returns with no state change (lines 292–296). -/
def decode_current (hasZbar : Bool) (st : AppState)
    (decodeRes : Except String (List DecodeHit)) : AppState :=
  match st.image with
  | none => st
  | some _ =>
    if !hasZbar then st
    else
      match decodeRes with
      | .error _ => st
      | .ok results =>
        let pr := process results
        { st with rows := pr.1, rects := pr.2 }

/-- One object entry of the JSON mapping file.  `rawIndex` is the outcome of
Python's `int(x.get("index", 0))` (source line 415): `none` models the
conversion raising `ValueError`.  `note` is `x.get("note", "")`; `code` and
`suggestion` are carried but never read by the import. -/
structure RawEntry where
  rawIndex : Option Int
  code : String
  suggestion : String
  note : String
deriving DecidableEq

/-- Source `MainWindow.export_json` (lines 394–405): the array written to the
file is `[asdict(r) for r in self.rows]`, one object per row with all four
fields. -/
def export_json_data (rows : List Row) : List RawEntry :=
  rows.map (fun r =>
    { rawIndex := some r.index
      code := r.code
      suggestion := r.suggestion
      note := r.note })

/-- The dict comprehension of `import_json` (line 415), evaluated left to
right: fails as a whole if any entry's index conversion fails, otherwise
yields the key/value pairs in order (later duplicates shadow earlier ones on
lookup, as in a Python dict). -/
def buildNotesMapAux (acc : List (Int × String)) :
    List RawEntry → Except Unit (List (Int × String))
  | [] => Except.ok acc
  | x :: xs =>
    match x.rawIndex with
    | none => Except.error ()
    | some k => buildNotesMapAux (acc ++ [(k, x.note)]) xs

/-- Python `notes_by_index.get(idx, "")`: the value of the last pair with the
given key, or `""` when the key is absent. -/
def dictGet (m : List (Int × String)) (k : Int) : String :=
  ((m.filter (fun p => p.1 == k)).getLastD (k, "")).2

/-- Source `MainWindow.import_json` (lines 407–423) acting on the displayed
rows.  `input` is the outcome of opening and JSON-parsing the selected file
(`error` models `open`/`json.load` raising).  The whole note mapping is built
before any table cell is written; any failure is caught and leaves the rows
unchanged. -/
def import_json (rows : List Row) (input : Except Unit (List RawEntry)) :
    List Row :=
  match input with
  | .error _ => rows
  | .ok arr =>
    match buildNotesMapAux [] arr with
    | .error _ => rows
    | .ok m => rows.map (fun r => { r with note := dictGet m r.index })

example :
    process [⟨"CODE128", [0x41], ⟨5, 7, 3, 2⟩⟩, ⟨"QRCODE", [0x42], ⟨0, 0, 1, 1⟩⟩,
      ⟨"CODE128", [0x43], ⟨1, 2, 3, 4⟩⟩] =
    ([⟨1, "C", "C  [L{1}] | suffisso lettera", ""⟩, ⟨2, "A", "A  [L{1}] | suffisso lettera", ""⟩],
      [(1, 2, 3, 4), (5, 7, 3, 2)]) := by decide
example :
    import_json [⟨1, "A", "s", "old"⟩]
      (Except.ok [⟨some 1, "B", "t", "new"⟩]) = [⟨1, "A", "s", "new"⟩] := by decide

/-! Helper lemmas about the stable insertion sort. -/

theorem insertLe_perm {α : Type} (le : α → α → Bool) (a : α) (s : List α) :
    (insertLe le a s).Perm (a :: s) := by
  induction s with
  | nil => simp [insertLe]
  | cons b l ih =>
    simp only [insertLe]
    split
    · exact List.Perm.refl _
    · exact (ih.cons b).trans (List.Perm.swap a b l)

theorem sortLe_perm {α : Type} (le : α → α → Bool) (l : List α) :
    (sortLe le l).Perm l := by
  induction l with
  | nil => simp [sortLe]
  | cons a l ih => exact (insertLe_perm le a (sortLe le l)).trans (ih.cons a)

theorem mem_insertLe {α : Type} {le : α → α → Bool} {a x : α} {s : List α}
    (hx : x ∈ insertLe le a s) : x = a ∨ x ∈ s := by
  have := (insertLe_perm le a s).mem_iff.mp hx
  simpa using this

theorem insertLe_pairwise {α : Type} {le : α → α → Bool}
    (htrans : ∀ a b c, le a b = true → le b c = true → le a c = true)
    (htot : ∀ a b, (le a b || le b a) = true)
    (a : α) {s : List α} (hs : s.Pairwise (fun x y => le x y = true)) :
    (insertLe le a s).Pairwise (fun x y => le x y = true) := by
  induction s with
  | nil => simp [insertLe]
  | cons b l ih =>
    simp only [insertLe]
    rcases hs with _ | ⟨hb, hl⟩
    by_cases hab : le a b = true
    · rw [if_pos hab]
      refine List.Pairwise.cons ?_ (List.Pairwise.cons hb hl)
      intro x hx
      rcases List.mem_cons.mp hx with rfl | hx
      · exact hab
      · exact htrans a b x hab (hb x hx)
    · rw [if_neg hab]
      refine List.Pairwise.cons ?_ (ih hl)
      intro x hx
      rcases mem_insertLe hx with hxa | hx
      · rw [hxa]
        have h2 := htot a b
        simp only [Bool.or_eq_true] at h2
        rcases h2 with h2 | h2
        · exact absurd h2 hab
        · exact h2
      · exact hb x hx

theorem sortLe_pairwise {α : Type} {le : α → α → Bool}
    (htrans : ∀ a b c, le a b = true → le b c = true → le a c = true)
    (htot : ∀ a b, (le a b || le b a) = true) (l : List α) :
    (sortLe le l).Pairwise (fun x y => le x y = true) := by
  induction l with
  | nil => simp [sortLe]
  | cons a l ih => exact insertLe_pairwise htrans htot a ih

theorem insertLe_filter_pos {α : Type} {le : α → α → Bool} {p : α → Bool} {a : α}
    (hpa : p a = true) (hle : ∀ b, p b = true → le a b = true) (s : List α) :
    (insertLe le a s).filter p = a :: s.filter p := by
  induction s with
  | nil => simp [insertLe, List.filter_cons, hpa]
  | cons b l ih =>
    simp only [insertLe]
    split
    · simp [List.filter_cons, hpa]
    · case isFalse hab =>
      have hpb : p b = false := by
        cases hb : p b
        · rfl
        · exact absurd (hle b hb) hab
      simp [List.filter_cons, hpb, ih]

theorem insertLe_filter_neg {α : Type} {le : α → α → Bool} {p : α → Bool} {a : α}
    (hpa : p a = false) (s : List α) :
    (insertLe le a s).filter p = s.filter p := by
  induction s with
  | nil => simp [insertLe, List.filter_cons, hpa]
  | cons b l ih =>
    simp only [insertLe]
    split
    · simp [List.filter_cons, hpa]
    · simp [List.filter_cons, ih]

theorem keyLe_total (a b : DecodeHit) : (keyLe a b || keyLe b a) = true := by
  simp only [keyLe, Bool.or_eq_true, decide_eq_true_eq]
  omega

theorem keyLe_trans (a b c : DecodeHit) :
    keyLe a b = true → keyLe b c = true → keyLe a c = true := by
  simp only [keyLe, decide_eq_true_eq]
  intro h1 h2
  omega

theorem keyLe_of_key_eq {a b : DecodeHit} (h : key_of a = key_of b) :
    keyLe a b = true := by
  have h1 : (key_of a).1 = (key_of b).1 := by rw [h]
  have h2 : (key_of a).2 = (key_of b).2 := by rw [h]
  simp only [keyLe, decide_eq_true_eq]
  omega

theorem sortLe_filter_key (k : Int × Int) (l : List DecodeHit) :
    (sortLe keyLe l).filter (fun h => decide (key_of h = k)) =
      l.filter (fun h => decide (key_of h = k)) := by
  induction l with
  | nil => simp [sortLe]
  | cons a l ih =>
    simp only [sortLe]
    by_cases hk : key_of a = k
    · rw [insertLe_filter_pos (by simp [hk])
        (fun b hb => keyLe_of_key_eq (by simp only [decide_eq_true_eq] at hb; rw [hk, hb]))]
      simp [List.filter_cons, hk, ih]
    · rw [insertLe_filter_neg (by simp [hk])]
      simp [List.filter_cons, hk, ih]

/-- C1: for every input hit list, `process` stable-sorts the hits surviving
the symbology filter by `(top, left)` ascending — the sorted list is a
permutation of the filtered hits, pairwise ordered by the key, and for every
key value the subsequence with that key is exactly the one of the filtered
input (ties preserve filtered input order) — `rows.get i` has `index = i + 1`,
`boxes` has the same length as `rows`, and rows and boxes are built, in the
same order, from the same capped sorted hits, so `boxes.get i` is the
bounding rectangle of the hit that produced `rows.get i`. -/
theorem process_rows_indexed_sorted_stable (hits : List DecodeHit) :
    (∀ i (h : i < (process hits).1.length),
      (((process hits).1).get ⟨i, h⟩).index = (i : Int) + 1) ∧
    (process hits).2.length = (process hits).1.length ∧
    (sortedHits hits).Perm (filteredHits hits) ∧
    (sortedHits hits).Pairwise (fun a b => keyLe a b = true) ∧
    (∀ k : Int × Int,
      (sortedHits hits).filter (fun h => decide (key_of h = k)) =
        (filteredHits hits).filter (fun h => decide (key_of h = k))) ∧
    (process hits).1 =
      ((sortedHits hits).take 10).enum.map (fun p => mkRow ((p.1 : Int) + 1) p.2) ∧
    (process hits).2 = ((sortedHits hits).take 10).map rectTuple := by
  refine ⟨?_, ?_, sortLe_perm keyLe _, sortLe_pairwise keyLe_trans keyLe_total _,
    fun k => sortLe_filter_key k _, rfl, rfl⟩
  · intro i h
    simp [process, mkRow, List.get_eq_getElem, List.getElem_enum]
  · simp [process]

/-- C1 witness: the theorem applied to a concrete two-hit list. -/
theorem process_rows_indexed_sorted_stable_witness :
    (((process [⟨"CODE128", [65], ⟨5, 7, 3, 2⟩⟩, ⟨"CODE128", [66], ⟨1, 2, 3, 4⟩⟩]).1).get
        ⟨0, by decide⟩).index = (0 : Int) + 1 ∧
    (process [⟨"CODE128", [65], ⟨5, 7, 3, 2⟩⟩, ⟨"CODE128", [66], ⟨1, 2, 3, 4⟩⟩]).2.length =
      (process [⟨"CODE128", [65], ⟨5, 7, 3, 2⟩⟩, ⟨"CODE128", [66], ⟨1, 2, 3, 4⟩⟩]).1.length :=
  ⟨(process_rows_indexed_sorted_stable
      [⟨"CODE128", [65], ⟨5, 7, 3, 2⟩⟩, ⟨"CODE128", [66], ⟨1, 2, 3, 4⟩⟩]).1 0 (by decide),
    (process_rows_indexed_sorted_stable
      [⟨"CODE128", [65], ⟨5, 7, 3, 2⟩⟩, ⟨"CODE128", [66], ⟨1, 2, 3, 4⟩⟩]).2.1⟩

/-- The number of rows `process` produces: the number of filtered hits, capped
at 10. -/
theorem process_length_eq (hits : List DecodeHit) :
    (process hits).1.length = min (filteredHits hits).length 10 := by
  have h1 : (process hits).1.length = min 10 (sortedHits hits).length := by
    simp [process, List.length_take]
  have h2 : (sortedHits hits).length = (filteredHits hits).length :=
    (sortLe_perm keyLe _).length_eq
  omega

/-- C2: `process` returns at most 10 rows; when more than 10 hits pass the
filter, exactly 10 rows are produced, they are built from the first 10 hits
of the sorted list, the kept and dropped hits together are a permutation of
the filtered hits, and every kept hit's `(top, left)` key is at most every
dropped hit's key — the excess is dropped without error. -/
theorem process_cap_ten (hits : List DecodeHit)
    (hmany : 10 < (filteredHits hits).length) :
    (process hits).1.length = 10 ∧
    (∀ hits2 : List DecodeHit, (process hits2).1.length ≤ 10) ∧
    (((sortedHits hits).take 10 ++ (sortedHits hits).drop 10).Perm
      (filteredHits hits)) ∧
    (process hits).1 =
      ((sortedHits hits).take 10).enum.map (fun p => mkRow ((p.1 : Int) + 1) p.2) ∧
    (∀ a ∈ (sortedHits hits).take 10, ∀ b ∈ (sortedHits hits).drop 10,
      keyLe a b = true) := by
  refine ⟨?_, ?_, ?_, rfl, ?_⟩
  · have := process_length_eq hits
    omega
  · intro hits2
    have := process_length_eq hits2
    omega
  · rw [List.take_append_drop]
    exact sortLe_perm keyLe _
  · have hp : ((sortedHits hits).take 10 ++ (sortedHits hits).drop 10).Pairwise
        (fun a b => keyLe a b = true) := by
      rw [List.take_append_drop]
      exact sortLe_pairwise keyLe_trans keyLe_total _
    exact (List.pairwise_append.mp hp).2.2

/-- C2 witness: eleven filtered hits yield exactly 10 rows. -/
theorem process_cap_ten_witness :
    10 < (filteredHits [⟨"CODE128", [], ⟨0, 0, 1, 1⟩⟩, ⟨"CODE128", [], ⟨0, 1, 1, 1⟩⟩,
      ⟨"CODE128", [], ⟨0, 2, 1, 1⟩⟩, ⟨"CODE128", [], ⟨0, 3, 1, 1⟩⟩,
      ⟨"CODE128", [], ⟨0, 4, 1, 1⟩⟩, ⟨"CODE128", [], ⟨0, 5, 1, 1⟩⟩,
      ⟨"CODE128", [], ⟨0, 6, 1, 1⟩⟩, ⟨"CODE128", [], ⟨0, 7, 1, 1⟩⟩,
      ⟨"CODE128", [], ⟨0, 8, 1, 1⟩⟩, ⟨"CODE128", [], ⟨0, 9, 1, 1⟩⟩,
      ⟨"CODE128", [], ⟨0, 10, 1, 1⟩⟩]).length ∧
    (process [⟨"CODE128", [], ⟨0, 0, 1, 1⟩⟩, ⟨"CODE128", [], ⟨0, 1, 1, 1⟩⟩,
      ⟨"CODE128", [], ⟨0, 2, 1, 1⟩⟩, ⟨"CODE128", [], ⟨0, 3, 1, 1⟩⟩,
      ⟨"CODE128", [], ⟨0, 4, 1, 1⟩⟩, ⟨"CODE128", [], ⟨0, 5, 1, 1⟩⟩,
      ⟨"CODE128", [], ⟨0, 6, 1, 1⟩⟩, ⟨"CODE128", [], ⟨0, 7, 1, 1⟩⟩,
      ⟨"CODE128", [], ⟨0, 8, 1, 1⟩⟩, ⟨"CODE128", [], ⟨0, 9, 1, 1⟩⟩,
      ⟨"CODE128", [], ⟨0, 10, 1, 1⟩⟩]).1.length = 10 :=
  ⟨by decide,
    (process_cap_ten [⟨"CODE128", [], ⟨0, 0, 1, 1⟩⟩, ⟨"CODE128", [], ⟨0, 1, 1, 1⟩⟩,
      ⟨"CODE128", [], ⟨0, 2, 1, 1⟩⟩, ⟨"CODE128", [], ⟨0, 3, 1, 1⟩⟩,
      ⟨"CODE128", [], ⟨0, 4, 1, 1⟩⟩, ⟨"CODE128", [], ⟨0, 5, 1, 1⟩⟩,
      ⟨"CODE128", [], ⟨0, 6, 1, 1⟩⟩, ⟨"CODE128", [], ⟨0, 7, 1, 1⟩⟩,
      ⟨"CODE128", [], ⟨0, 8, 1, 1⟩⟩, ⟨"CODE128", [], ⟨0, 9, 1, 1⟩⟩,
      ⟨"CODE128", [], ⟨0, 10, 1, 1⟩⟩] (by decide)).1⟩

/-- C3: a hit whose symbology is not `"CODE128"` is silently dropped — its
presence anywhere in the input changes nothing in the output and it is not an
error — every filtered hit has symbology `"CODE128"`, and the number of rows
is exactly the number of `"CODE128"` hits capped at 10. -/
theorem process_filters_code128 (l1 l2 : List DecodeHit) (h : DecodeHit)
    (hne : h.type ≠ "CODE128") :
    process (l1 ++ h :: l2) = process (l1 ++ l2) ∧
    (∀ hits r, r ∈ filteredHits hits → r.type = "CODE128") ∧
    (∀ hits, (process hits).1.length = min (filteredHits hits).length 10) := by
  refine ⟨?_, ?_, process_length_eq⟩
  · have hb : (h.type == "CODE128") = false := beq_eq_false_iff_ne.mpr hne
    have hfil : filteredHits (l1 ++ h :: l2) = filteredHits (l1 ++ l2) := by
      simp [filteredHits, List.filter_append, List.filter_cons, hb]
    simp [process, sortedHits, hfil]
  · intro hits r hr
    have := (List.mem_filter.mp hr).2
    simpa using this

/-- C3 witness: a QR-code hit contributes nothing. -/
theorem process_filters_code128_witness :
    (⟨"QRCODE", [], ⟨0, 0, 1, 1⟩⟩ : DecodeHit).type ≠ "CODE128" ∧
    process ([] ++ (⟨"QRCODE", [], ⟨0, 0, 1, 1⟩⟩ : DecodeHit) :: []) = process ([] ++ []) :=
  ⟨by decide, (process_filters_code128 [] [] ⟨"QRCODE", [], ⟨0, 0, 1, 1⟩⟩ (by decide)).1⟩

/-- Ill-formed input always leaves at least one replacement character in the
output of the replacing decoder. -/
theorem utf8ReplAux_invalid : ∀ (fuel : Nat) (l : List Nat),
    validUTF8Aux fuel l = false → replacementChar ∈ utf8ReplAux fuel l := by
  intro fuel
  induction fuel with
  | zero => intro l hval; simp [validUTF8Aux] at hval
  | succ n ih =>
    intro l hval
    cases l with
    | nil => simp [validUTF8Aux] at hval
    | cons b0 rest =>
      rcases hstep : utf8Step b0 rest with ⟨oc, k⟩
      cases oc with
      | some c =>
        have hv : validUTF8Aux n (rest.drop (k - 1)) = false := by
          rw [validUTF8Aux, hstep] at hval
          exact hval
        have hm := ih _ hv
        rw [utf8ReplAux, hstep]
        exact List.mem_cons_of_mem _ hm
      | none =>
        rw [utf8ReplAux, hstep]
        exact List.mem_cons_self _ _

/-- C4: the pipeline is total — every row's `code` is some input hit's
payload decoded by the replacing UTF-8 decoder (no exception is modelled
because none can be raised), and whenever that payload is not valid UTF-8 the
row's `code` contains the visible replacement character U+FFFD. -/
theorem process_code_utf8_replace (hits : List DecodeHit) (r : Row)
    (hr : r ∈ (process hits).1) :
    ∃ h, h ∈ hits ∧ r.code = utf8DecodeReplace h.data ∧
      (validUTF8 h.data = false → replacementChar ∈ r.code.data) := by
  simp only [process] at hr
  rcases List.mem_map.mp hr with ⟨p, hp, rfl⟩
  have hsnd : p.2 ∈ (sortedHits hits).take 10 := by
    have := List.mem_map_of_mem Prod.snd hp
    rwa [List.enum_map_snd] at this
  have hmem : p.2 ∈ hits :=
    List.mem_of_mem_filter
      (((sortLe_perm keyLe (filteredHits hits)).mem_iff).mp
        (List.mem_of_mem_take hsnd))
  refine ⟨p.2, hmem, rfl, fun hval => ?_⟩
  exact utf8ReplAux_invalid _ _ hval

/-- C4 witness: a hit whose payload is the lone byte `0xFF` yields the row
code `"�"`. -/
theorem process_code_utf8_replace_witness :
    (⟨1, "�", "�  [X{1}]", ""⟩ : Row) ∈
      (process [⟨"CODE128", [0xFF], ⟨0, 0, 3, 2⟩⟩]).1 ∧
    ∃ h, h ∈ [(⟨"CODE128", [0xFF], ⟨0, 0, 3, 2⟩⟩ : DecodeHit)] ∧
      (⟨1, "�", "�  [X{1}]", ""⟩ : Row).code = utf8DecodeReplace h.data ∧
      (validUTF8 h.data = false →
        replacementChar ∈ (⟨1, "�", "�  [X{1}]", ""⟩ : Row).code.data) :=
  ⟨by decide,
    process_code_utf8_replace [⟨"CODE128", [0xFF], ⟨0, 0, 3, 2⟩⟩]
      ⟨1, "�", "�  [X{1}]", ""⟩ (by decide)⟩

/-- C5 counterexample: `suggest_structure "9123456A"` is not the string the
claim asserts — the code emits its hint texts in Italian and the 7-digit
token does trigger the numeric-serial hint (the source tests
`len(t) in (5, 6, 7)`). -/
theorem suggest_structure_c5_counterexample :
    suggest_structure "9123456A" ≠
      "9123456 + A  [N{7}L{1}] | starts with 9 (flag), letter suffix" := by
  decide

/-- C5 amended: the exact output on `"9123456A"` — two tokens `9123456` and
`A`, pattern `N{7}L{1}`, and all three hints: starts-with-9, letter suffix,
and the numeric-serial hint (a 7-digit token counts), with the source's
Italian hint texts. -/
theorem suggest_structure_9123456A :
    suggest_structure "9123456A" =
      "9123456 + A  [N{7}L{1}] | inizia con 9 (flag), suffisso lettera, possibile serial numerico" ∧
    suggestParts "9123456A" = [['9', '1', '2', '3', '4', '5', '6'], ['A']] := by
  constructor <;> decide

/-- C8: when the external decode call raises, `decode_current` reports and
returns — the rows, notes, rectangles (and hence the table) are exactly the
state from before the call; nothing is cleared first. -/
theorem decode_current_error_preserves_state (hasZbar : Bool) (st : AppState)
    (e : String) : decode_current hasZbar st (Except.error e) = st := by
  rcases st with ⟨img, rows, rects⟩
  cases img with
  | none => rfl
  | some u => cases hasZbar <;> rfl

/-- The segmentation loop never loses characters: the produced runs,
concatenated, are the characters it was fed. -/
theorem partsAux_flatten : ∀ (rest buf : List Char),
    (partsAux buf rest).flatten = buf ++ rest := by
  intro rest
  induction rest with
  | nil => intro buf; simp [partsAux]
  | cons ch tl ih =>
    intro buf
    rw [partsAux]
    split
    · rw [ih (buf ++ [ch])]
      simp
    · simp only [List.flatten_cons, ih [ch]]
      simp

/-- C9: the segmentation inside `suggest_structure` is lossless — the tokens,
concatenated in order, are exactly the input string's characters, so the
groups part of the output with the separators removed reconstructs the
input. -/
theorem suggestParts_flatten_eq (s : String) :
    (suggestParts s).flatten = s.data ∧
    String.mk ((suggestParts s).flatten) = s := by
  have h : (suggestParts s).flatten = s.data := by
    rw [suggestParts]
    rcases hs : s.data with _ | ⟨c0, rest⟩
    · simp
    · rw [partsAux_flatten rest [c0]]
      simp
  exact ⟨h, by rw [h]⟩

/-- Every run the segmentation loop emits is nonempty. -/
theorem partsAux_ne_nil : ∀ (rest buf : List Char), buf ≠ [] →
    ∀ t ∈ partsAux buf rest, t ≠ [] := by
  intro rest
  induction rest with
  | nil =>
    intro buf hbuf t ht
    rw [partsAux] at ht
    simpa using (List.mem_singleton.mp ht) ▸ hbuf
  | cons ch tl ih =>
    intro buf hbuf t ht
    rw [partsAux] at ht
    split at ht
    · exact ih (buf ++ [ch]) (by simp) t ht
    · rcases List.mem_cons.mp ht with rfl | ht
      · exact hbuf
      · exact ih [ch] (by simp) t ht

/-- A run of length at least two consists only of characters that are digits
or letters: a character that is neither never joins a run and is never joined
by the next character. -/
theorem partsAux_alnum : ∀ (rest buf : List Char),
    (2 ≤ buf.length → ∀ c ∈ buf, (pyIsDigit c || pyIsAlpha c) = true) →
    ∀ t ∈ partsAux buf rest, 2 ≤ t.length →
      ∀ c ∈ t, (pyIsDigit c || pyIsAlpha c) = true := by
  intro rest
  induction rest with
  | nil =>
    intro buf hbuf t ht
    rw [partsAux] at ht
    rw [List.mem_singleton.mp ht]
    exact hbuf
  | cons ch tl ih =>
    intro buf hbuf t ht
    rw [partsAux] at ht
    split at ht
    · case isTrue hcond =>
      have hcond2 : (pyIsDigit ch = true ∧ pyIsDigit (buf.getLastD ' ') = true) ∨
          (pyIsAlpha ch = true ∧ pyIsAlpha (buf.getLastD ' ') = true) := by
        simpa using hcond
      have hch : (pyIsDigit ch || pyIsAlpha ch) = true := by
        rcases hcond2 with ⟨h1, h3⟩ | ⟨h1, h3⟩ <;> simp [h1]
      refine ih (buf ++ [ch]) ?_ t ht
      intro h2 c hc
      rcases List.mem_append.mp hc with hc | hc
      · rcases hb : buf with _ | ⟨b, bs⟩
        · rw [hb] at hc
          simp at hc
        · rcases hbs : bs with _ | ⟨b2, bs2⟩
          · have hcb : c = b := by
              rw [hb, hbs] at hc
              simpa using hc
            have hlast : buf.getLastD ' ' = b := by
              rw [hb, hbs]
              rfl
            rw [hlast] at hcond2
            rw [hcb]
            rcases hcond2 with ⟨h1, h3⟩ | ⟨h1, h3⟩ <;> simp [h3]
          · refine hbuf ?_ c hc
            rw [hb, hbs]
            simp
      · have hcch : c = ch := by simpa using hc
        rw [hcch]
        exact hch
    · rcases List.mem_cons.mp ht with rfl | ht
      · exact hbuf
      · refine ih [ch] ?_ t ht
        intro h2
        simp at h2

/-- C6 counterexample: the classification is Unicode-wide, not ASCII — the
non-ASCII letter `é` forms an `L` token (not `X`), and the non-ASCII digit
`١` forms an `N` token (not `X`), because Python's `str.isalpha` and
`str.isdigit` accept them. -/
theorem suggest_structure_nonascii_counterexample :
    suggest_structure "é" = "é  [L{1}] | suffisso lettera" ∧
    suggest_structure "é" ≠ "é  [X{1}]" ∧
    suggest_structure "١" = "١  [N{1}]" ∧
    suggest_structure "١" ≠ "١  [X{1}]" ∧
    token_pat ['é'] = "L{1}" ∧ token_pat ['١'] = "N{1}" := by
  refine ⟨by decide, by decide, by decide, by decide, by decide, by decide⟩

/-- C6 amended: `suggest_structure` is total (it is a total function of this
embedding), and every character that is neither a digit nor a letter in the
Unicode sense of Python's `str.isdigit`/`str.isalpha` forms its own
single-character token classified `X`; non-ASCII letters and digits, being
accepted by those predicates, are classified `L` and `N` instead. -/
theorem suggest_structure_x_tokens (s : String) (t : List Char) (c : Char)
    (ht : t ∈ suggestParts s) (hc : c ∈ t)
    (hd : pyIsDigit c = false) (ha : pyIsAlpha c = false) :
    t = [c] ∧ token_pat t = "X{1}" := by
  have htc : t = [c] := by
    rw [suggestParts] at ht
    rcases hs : s.data with _ | ⟨c0, rest⟩
    · rw [hs] at ht
      simp at ht
    · rw [hs] at ht
      have hne : t ≠ [] := partsAux_ne_nil rest [c0] (by simp) t ht
      have hlen : ¬ 2 ≤ t.length := by
        intro h2
        have := partsAux_alnum rest [c0] (by intro h; simp at h) t ht h2 c hc
        rw [hd, ha] at this
        simp at this
      have h1 : t.length = 1 := by
        rcases t with _ | ⟨x, xs⟩
        · exact absurd rfl hne
        · simp only [List.length_cons] at hlen ⊢
          omega
      rcases List.length_eq_one.mp h1 with ⟨x, hx⟩
      rw [hx] at hc ⊢
      have : c = x := by simpa using hc
      rw [this]
  refine ⟨htc, ?_⟩
  rw [htc]
  have hkind1 : pyStrIsDigit [c] = false := by simp [pyStrIsDigit, hd]
  have hkind2 : pyStrIsAlpha [c] = false := by simp [pyStrIsAlpha, ha]
  simp only [token_pat, hkind1, hkind2, Bool.false_eq_true, if_false, List.length_singleton]
  rfl

/-- C6 witness: in `"a!b"` the character `!` forms its own `X` token. -/
theorem suggest_structure_x_tokens_witness :
    ['!'] ∈ suggestParts "a!b" ∧ '!' ∈ ['!'] ∧
    pyIsDigit '!' = false ∧ pyIsAlpha '!' = false ∧
    (['!'] = ['!'] ∧ token_pat ['!'] = "X{1}") :=
  ⟨by decide, by decide, by decide, by decide,
    suggest_structure_x_tokens "a!b" ['!'] '!' (by decide) (by decide)
      (by decide) (by decide)⟩

/-- Folding the export of a row list through the dict comprehension succeeds
and yields the index/note pairs in order. -/
theorem buildNotesMapAux_export : ∀ (rows : List Row) (acc : List (Int × String)),
    buildNotesMapAux acc (export_json_data rows) =
      Except.ok (acc ++ rows.map (fun r => (r.index, r.note))) := by
  intro rows
  induction rows with
  | nil => intro acc; simp [export_json_data, buildNotesMapAux]
  | cons r rs ih =>
    intro acc
    simp only [export_json_data, List.map_cons] at ih ⊢
    rw [buildNotesMapAux]
    simp only []
    rw [ih (acc ++ [(r.index, r.note)])]
    simp

/-- The dict comprehension fails as a whole when any entry's index conversion
fails. -/
theorem buildNotesMapAux_error : ∀ (arr : List RawEntry) (acc : List (Int × String)),
    (∃ x ∈ arr, x.rawIndex = none) → buildNotesMapAux acc arr = Except.error () := by
  intro arr
  induction arr with
  | nil => intro acc h; simp at h
  | cons x xs ih =>
    intro acc h
    rw [buildNotesMapAux]
    rcases hx : x.rawIndex with _ | k
    · rfl
    · rcases h with ⟨y, hy, hyn⟩
      rcases List.mem_cons.mp hy with rfl | hy
      · rw [hx] at hyn
        exact absurd hyn (by simp)
      · exact ih _ ⟨y, hy, hyn⟩

/-- Lookup in a duplicate-free pair list is the first (equivalently only)
match. -/
theorem dictGet_nodup : ∀ (m : List (Int × String)) (k : Int),
    (m.map Prod.fst).Nodup →
    dictGet m k = ((m.find? (fun p => p.1 == k)).map Prod.snd).getD "" := by
  intro m
  induction m with
  | nil => intro k hnd; simp [dictGet]
  | cons q t ih =>
    intro k hnd
    simp only [List.map_cons, List.nodup_cons] at hnd
    by_cases hq : q.1 = k
    · have hfil : t.filter (fun p => p.1 == k) = [] := by
        rw [List.filter_eq_nil_iff]
        intro p hp
        simp only [beq_iff_eq]
        intro hpk
        exact hnd.1 (by rw [← hq] at hpk; exact (List.mem_map_of_mem Prod.fst hp) |> (hpk ▸ ·))
      simp [dictGet, List.filter_cons, List.find?_cons, hq, hfil]
    · have hq2 : (q.1 == k) = false := beq_eq_false_iff_ne.mpr hq
      simp only [dictGet, List.filter_cons, hq2, List.find?_cons]
      rw [if_neg (by simp [hq2])]
      exact ih k hnd.2

/-- C7: exporting rows to the JSON array and importing it against displayed
rows restores every note, matched by `index` — a displayed row whose index
has no entry gets the empty note — and import never changes the displayed
rows' `index`, `code` or `suggestion`, whatever the imported array holds. -/
theorem export_import_round_trip (cur exported : List Row)
    (hnd : (exported.map Row.index).Nodup) :
    (import_json cur (Except.ok (export_json_data exported))).length = cur.length ∧
    (∀ i (h1 : i < (import_json cur (Except.ok (export_json_data exported))).length)
        (h2 : i < cur.length),
      ((import_json cur (Except.ok (export_json_data exported))).get ⟨i, h1⟩).index =
          (cur.get ⟨i, h2⟩).index ∧
      ((import_json cur (Except.ok (export_json_data exported))).get ⟨i, h1⟩).code =
          (cur.get ⟨i, h2⟩).code ∧
      ((import_json cur (Except.ok (export_json_data exported))).get ⟨i, h1⟩).suggestion =
          (cur.get ⟨i, h2⟩).suggestion ∧
      ((import_json cur (Except.ok (export_json_data exported))).get ⟨i, h1⟩).note =
        ((exported.find? (fun e => e.index == (cur.get ⟨i, h2⟩).index)).map Row.note).getD "") ∧
    (∀ arr : List RawEntry,
      (import_json cur (Except.ok arr)).map Row.code = cur.map Row.code ∧
      (import_json cur (Except.ok arr)).map Row.suggestion = cur.map Row.suggestion ∧
      (import_json cur (Except.ok arr)).map Row.index = cur.map Row.index) := by
  have himp : import_json cur (Except.ok (export_json_data exported)) =
      cur.map (fun r =>
        { r with note := dictGet (exported.map fun r2 => (r2.index, r2.note)) r.index }) := by
    simp only [import_json]
    rw [buildNotesMapAux_export exported []]
    simp
  have hnote : ∀ k : Int, dictGet (exported.map fun r2 => (r2.index, r2.note)) k =
      ((exported.find? (fun e => e.index == k)).map Row.note).getD "" := by
    intro k
    rw [dictGet_nodup _ k (by rw [List.map_map]; exact hnd)]
    rw [List.find?_map, Option.map_map]
    rfl
  refine ⟨by rw [himp]; simp, ?_, ?_⟩
  · intro i h1 h2
    have hg : (import_json cur (Except.ok (export_json_data exported))).get ⟨i, h1⟩ =
        { cur.get ⟨i, h2⟩ with
          note := dictGet (exported.map fun r2 => (r2.index, r2.note))
            (cur.get ⟨i, h2⟩).index } := by
      rw [List.get_of_eq himp ⟨i, h1⟩]
      simp [List.get_eq_getElem, List.getElem_map]
    rw [hg]
    exact ⟨rfl, rfl, rfl, hnote _⟩
  · intro arr
    rcases hb : buildNotesMapAux [] arr with u | m
    · simp [import_json, hb]
    · simp only [import_json, hb, List.map_map]
      exact ⟨rfl, rfl, rfl⟩

/-- C7 witness: the theorem applied to concrete displayed and exported rows. -/
theorem export_import_round_trip_witness :
    (import_json [⟨1, "A", "s", "x"⟩, ⟨2, "B", "t", "y"⟩]
        (Except.ok (export_json_data [⟨2, "C", "u", "N2"⟩]))).length =
      ([⟨1, "A", "s", "x"⟩, ⟨2, "B", "t", "y"⟩] : List Row).length :=
  (export_import_round_trip [⟨1, "A", "s", "x"⟩, ⟨2, "B", "t", "y"⟩]
      [⟨2, "C", "u", "N2"⟩] (by decide)).1

/-- C10: JSON import is atomic on failure — a file that fails to parse, or an
array in which some object's index does not convert to an integer, leaves
every displayed row (in particular every note) unchanged, because the whole
note mapping is built before any cell is written. -/
theorem import_json_failure_atomic (rows : List Row) :
    import_json rows (Except.error ()) = rows ∧
    (∀ arr : List RawEntry, (∃ x ∈ arr, x.rawIndex = none) →
      import_json rows (Except.ok arr) = rows) := by
  refine ⟨rfl, ?_⟩
  intro arr h
  simp [import_json, buildNotesMapAux_error arr [] h]

/-- C10 witness: an entry with a non-convertible index leaves the row set
unchanged. -/
theorem import_json_failure_atomic_witness :
    (∃ x ∈ [({ rawIndex := none, code := "c", suggestion := "s", note := "n" } : RawEntry)],
      x.rawIndex = none) ∧
    import_json [⟨1, "A", "sg", "keep"⟩]
        (Except.ok [({ rawIndex := none, code := "c", suggestion := "s", note := "n" } : RawEntry)]) =
      [⟨1, "A", "sg", "keep"⟩] :=
  ⟨by decide, (import_json_failure_atomic [⟨1, "A", "sg", "keep"⟩]).2 _ (by decide)⟩
